import Mathlib
/- Shallow embedding of src/eqcorrscan/core/lag_calc.py.

   Times, sample rates and correlation values are modelled as rationals;
   obspy Stream and Trace objects are modelled as lists of records.  The
   normalised cross-correlation primitive normxcorr2 (an external
   collaborator, out of scope per the spec) is abstracted as a function
   parameter named xc throughout. -/
/-- Statistics record of an obspy Trace, restricted to the fields read by
lag_calc.py: network, station, channel, sampling_rate, delta, starttime. -/
structure TraceStats where
  network : String
  station : String
  channel : String
  sampling_rate : ℚ
  delta : ℚ
  starttime : ℚ
deriving DecidableEq
/-- An obspy Trace: its stats plus the sample data. -/
structure Trace where
  stats : TraceStats
  data : List ℚ
deriving DecidableEq
/-- Phase hint of a pick: P or S.  The source also emits phase None, which is
modelled by the surrounding Option. -/
inductive PhaseHint
  | P
  | S
deriving DecidableEq
/-- An obspy Pick, restricted to the fields written by _channel_loop: the
waveform id (network, station, channel), the time and the phase hint. -/
structure Pick where
  network : String
  station : String
  channel : String
  time : ℚ
  phase : Option PhaseHint
deriving DecidableEq
/-- An obspy Event: the list of picks accumulated for one detection. -/
structure Event where
  picks : List Pick
deriving DecidableEq
/-- A DETECTION object as read by lag_calc: template name and detect time. -/
structure Detection where
  template_name : String
  detect_time : ℚ
deriving DecidableEq
/-- Models obspy Stream.select with literal station and channel codes
(lag_calc.py only ever passes codes taken verbatim from trace stats, so the
wildcard matching of obspy select degenerates to equality). -/
def select (st : List Trace) (station channel : String) : List Trace :=
  st.filter fun t => t.stats.station == station && t.stats.channel == channel
/-- Models numpy amax on a nonempty sequence: the maximum element. -/
def amax (l : List ℚ) : ℚ :=
  l.foldl max (l.headD 0)
/-- Models numpy argmax: index of the first occurrence of the maximum. -/
def argmax (l : List ℚ) : ℕ :=
  l.indexOf (amax l)
/-- Running mutable state of the loop body of _channel_loop: the s_stachans
dictionary (an association list keyed by station; the source only ever
inserts a key that is absent, so keys stay distinct), the used_s_sta list and
the picks accumulated in the event so far. -/
structure CLState where
  s_stachans : List (String × String × ℚ × ℚ)
  used_s_sta : List String
  picks : List Pick
deriving DecidableEq
/-- Lookup of a station key in the s_stachans association list, modelling
Python dict membership and indexing. -/
def lookupS : List (String × String × ℚ × ℚ) → String → Option (String × ℚ × ℚ)
  | [], _ => none
  | e :: rest, sta => if e.1 == sta then some e.2 else lookupS rest sta
/-- Classification of a channel code by its final character, following the
branch structure of lag_calc.py lines 54-73: Z gives P, E or N gives S,
anything else (including the empty code) gives phase None. -/
def phaseOf (chan : String) : Option PhaseHint :=
  match chan.data.getLast? with
  | some 'Z' => some PhaseHint.P
  | some 'E' => some PhaseHint.S
  | some 'N' => some PhaseHint.S
  | _ => none
/-- Body of the template-trace loop of _channel_loop (lag_calc.py lines
36-80) for a single template trace tr.  The branch structure mirrors the
source: skip when select finds no image; continue when the correlation peak
is not strictly above min_cc; otherwise classify by channel suffix, running
the s_stachans bookkeeping for horizontal channels, and append one pick.
The two branches guarded by amax ccc < min_cc are kept from the source even
though they sit below the strict threshold test and are unreachable. -/
def channelStep (xc : List ℚ → List ℚ → List ℚ) (detection : List Trace) (min_cc : ℚ)
    (st : CLState) (tr : Trace) : CLState :=
  let temp_net := tr.stats.network
  let temp_sta := tr.stats.station
  let temp_chan := tr.stats.channel
  match (select detection temp_sta temp_chan).head? with
  | none => st
  | some im =>
    let ccc := xc tr.data im.data
    if min_cc < amax ccc then
      let picktime := im.stats.starttime + (argmax ccc : ℚ) * im.stats.delta
      if temp_chan.data.getLast? = some 'Z' then
        { st with picks := st.picks ++
            [⟨temp_net, temp_sta, temp_chan, picktime, some PhaseHint.P⟩] }
      else if temp_chan.data.getLast? = some 'E' ∨ temp_chan.data.getLast? = some 'N' then
        match lookupS st.s_stachans temp_sta with
        | none =>
          if min_cc < amax ccc then
            { st with
              s_stachans := st.s_stachans ++ [(temp_sta, temp_chan, amax ccc, picktime)],
              picks := st.picks ++
                [⟨temp_net, temp_sta, temp_chan, picktime, some PhaseHint.S⟩] }
          else if amax ccc < min_cc ∧ temp_sta ∉ st.used_s_sta then
            { st with
              used_s_sta := st.used_s_sta ++ [temp_sta],
              picks := st.picks ++
                [⟨temp_net, temp_sta, temp_chan, picktime, some PhaseHint.S⟩] }
          else st
        | some (b_chan, b_peak, b_time) =>
          if min_cc < amax ccc then
            if b_peak < amax ccc then
              { st with picks := st.picks ++
                  [⟨temp_net, temp_sta, temp_chan, picktime, some PhaseHint.S⟩] }
            else
              { st with picks := st.picks ++
                  [⟨temp_net, temp_sta, b_chan, b_time, some PhaseHint.S⟩] }
          else if amax ccc < min_cc ∧ temp_sta ∉ st.used_s_sta then
            { st with
              used_s_sta := st.used_s_sta ++ [temp_sta],
              picks := st.picks ++
                [⟨temp_net, temp_sta, temp_chan, picktime, some PhaseHint.S⟩] }
          else st
      else
        { st with picks := st.picks ++
            [⟨temp_net, temp_sta, temp_chan, picktime, none⟩] }
    else st
/-- Models _channel_loop (lag_calc.py lines 10-81): fold the loop body over
the template traces starting from the empty state; the returned Event
collects the picks in order of appending.  The (i, event) index tagging of
the return value is applied by the caller model, see tagEvents below. -/
def channelLoop (xc : List ℚ → List ℚ → List ℚ) (detection template : List Trace)
    (min_cc : ℚ) : Event :=
  ⟨(template.foldl (channelStep xc detection min_cc) ⟨[], [], []⟩).picks⟩
/-- Comparison of traces by start time: the key used by the in-place
Stream.sort with key starttime at lag_calc.py line 186. -/
def traceLe (a b : Trace) : Prop := a.stats.starttime ≤ b.stats.starttime
instance : DecidableRel traceLe :=
  fun a b => inferInstanceAs (Decidable (a.stats.starttime ≤ b.stats.starttime))
instance : IsTotal Trace traceLe := ⟨fun a b => le_total a.stats.starttime b.stats.starttime⟩
instance : IsTrans Trace traceLe := ⟨fun _ _ _ h1 h2 => le_trans h1 h2⟩
/-- Models obspy Stream.sort with key starttime: a stable in-place sort of the
trace list by start time (Python list.sort is stable, as is insertion sort). -/
def streamSortStart (st : List Trace) : List Trace := List.insertionSort traceLe st
/-- Start time of the head of the sorted stream, the expression
template.sort(starttime)[0].stats.starttime of lag_calc.py lines 185-186;
the default for the empty stream is never reached because the expression is
only evaluated inside the loop over the traces of the same stream. -/
def minStarttime (st : List Trace) : ℚ :=
  match streamSortStart st with
  | [] => 0
  | t :: _ => t.stats.starttime
/-- Per-template delay list (lag_calc.py lines 182-186).  obspy Stream
iteration returns an iterator over a snapshot copy of the trace list, so the
in-place sort evaluated inside the loop body does not change the iteration
order: each trace of the original stream, in original order, yields exactly
one (station, channel, starttime minus minimum starttime) entry. -/
def tempDelays (st : List Trace) : List (String × String × ℚ) :=
  st.map fun tr => (tr.stats.station, tr.stats.channel, tr.stats.starttime - minStarttime st)
/-- The delay table of lag_calc (lines 179-187): for each zipped
(template name, template) pair, the pair of the name and the delay list. -/
def delayTable (template_names : List String) (templates : List (List Trace)) :
    List (String × List (String × String × ℚ)) :=
  (template_names.zip templates).map fun p => (p.1, tempDelays p.2)
/-- zipped_templates as it stands after the delay loop: each paired template
stream has been sorted in place by start time, and all later reads of
zipped_templates (lines 196, 224) see the sorted streams. -/
def zippedSorted (template_names : List String) (templates : List (List Trace)) :
    List (String × List Trace) :=
  (template_names.zip templates).map fun p => (p.1, streamSortStart p.2)
/-- Errors observable from lag_calc.  The source can only raise IndexError (a
subclass of LookupError in Python) from its three ...[0] lookups on filtered
lists; configurationError appears in the error taxonomy of the spec but in no
statement of the source. -/
inductive PyErr
  | lookupError
  | configurationError
deriving DecidableEq
/-- Python [x for x in l if p x][0]: the first element satisfying p, raising
IndexError (hence LookupError) when none exists. -/
def firstMatch (p : α → Bool) (l : List α) : Except PyErr α :=
  match l.filter p with
  | [] => Except.error PyErr.lookupError
  | x :: _ => Except.ok x
/-- Models obspy Trace.trim (external library, called on a fresh copy of the
trace at lag_calc.py line 214): restricts the samples to those whose time
lies in the closed interval from st to en; the new start time is the time of
the first kept sample. -/
def trimTrace (tr : Trace) (st en : ℚ) : Trace :=
  let keep := (List.range tr.data.length).filter fun (i : ℕ) =>
    decide (st ≤ tr.stats.starttime + (i : ℚ) * tr.stats.delta) &&
    decide (tr.stats.starttime + (i : ℚ) * tr.stats.delta ≤ en)
  { stats := { tr.stats with starttime :=
      match keep with
      | [] => st
      | i :: _ => tr.stats.starttime + (i : ℚ) * tr.stats.delta },
    data := keep.map fun i => tr.data.getD i 0 }
/-- Body of the continuous-data loop of lag_calc (lines 193-219) for one
detection: each trace of the continuous data is copied (tr.copy, so the
window owns its samples and the continuous stream is never written), the
template of the detection is resolved by name (IndexError when absent), the
matching (station, channel) is selected in the resolved, already sorted
template (skip the trace when absent), the template length in seconds and
the delay-table entry are read (IndexError when absent), and the copy is
trimmed to the window around detect_time. -/
def detectStreamTraces (zippedS : List (String × List Trace))
    (delays : List (String × List (String × String × ℚ)))
    (shift_len : ℚ) (d : Detection) : List Trace → Except PyErr (List Trace)
  | [] => Except.ok []
  | tr :: rest => do
    let tpl ← firstMatch (fun t => t.1 == d.template_name) zippedS
    match (select tpl.2 tr.stats.station tr.stats.channel).head? with
    | none => detectStreamTraces zippedS delays shift_len d rest
    | some t0 => do
      let template_len : ℚ := (t0.data.length : ℚ) / t0.stats.sampling_rate
      let delayList ← firstMatch (fun x => x.1 == d.template_name) delays
      let entry ← firstMatch
        (fun e => e.1 == tr.stats.station && e.2.1 == tr.stats.channel) delayList.2
      let delay := entry.2.2
      let rest2 ← detectStreamTraces zippedS delays shift_len d rest
      Except.ok (trimTrace tr (d.detect_time - shift_len + delay)
        (d.detect_time + delay + shift_len + template_len) :: rest2)
/-- The detect_streams list of lag_calc (lines 189-221): one (template name,
trimmed stream) pair per detection, in detection order; the first exception
aborts the whole run. -/
def buildDetectStreams (zippedS : List (String × List Trace))
    (delays : List (String × List (String × String × ℚ)))
    (shift_len : ℚ) : List Detection → List Trace → Except PyErr (List (String × List Trace))
  | [], _ => Except.ok []
  | d :: rest, detect_data => do
    let s ← detectStreamTraces zippedS delays shift_len d detect_data
    let restS ← buildDetectStreams zippedS delays shift_len rest detect_data
    Except.ok ((d.template_name, s) :: restS)
/-- Index tagging of the results before dispatch (lag_calc.py lines
113-116): task i carries the tuple (i, event). -/
def tagEvents : ℕ → List Event → List (ℕ × Event)
  | _, [] => []
  | k, e :: es => (k, e) :: tagEvents (k + 1) es
/-- Ordering of tagged results by their index tag, the key of the sort at
lag_calc.py line 119. -/
def tagLe (a b : ℕ × Event) : Prop := a.1 ≤ b.1
/-- Strict version of tagLe, used to state that the dispatched tags are
pairwise distinct and increasing. -/
def tagLt (a b : ℕ × Event) : Prop := a.1 < b.1
instance : DecidableRel tagLe := fun a b => inferInstanceAs (Decidable (a.1 ≤ b.1))
instance : IsTotal (ℕ × Event) tagLe := ⟨fun a b => Nat.le_total a.1 b.1⟩
instance : IsTrans (ℕ × Event) tagLe := ⟨fun _ _ _ h1 h2 => Nat.le_trans h1 h2⟩
instance : IsAntisymm (ℕ × Event) tagLt :=
  ⟨fun _ _ h1 h2 => absurd (Nat.lt_trans h1 h2) (Nat.lt_irrefl _)⟩
/-- Models _day_loop (lag_calc.py lines 84-122).  The worker pool (sized to
min(cpu_count, number of detections), line 108-111) is abstracted by the
parameter sched: the order in which the tagged task results are available at
the join is some permutation of the dispatched order, and sched produces
that order; sched = id is the sequential semantics.  After the join the
results are sorted by their index tag and the events are unwrapped. -/
def dayLoop (sched : List (ℕ × Event) → List (ℕ × Event)) (xc : List ℚ → List ℚ → List ℚ)
    (detection_streams : List (List Trace)) (template : List Trace) (min_cc : ℚ) :
    List Event :=
  let results := tagEvents 0 (detection_streams.map fun d => channelLoop xc d template min_cc)
  (List.insertionSort tagLe (sched results)).map Prod.snd
/-- Post-state of the caller-supplied templates after lag_calc: every
template paired with a name by zip(template_names, templates) has been
sorted in place by the delay loop; templates beyond the zip truncation are
never iterated and stay untouched. -/
def sortZippedTemplates : List String → List (List Trace) → List (List Trace)
  | _, [] => []
  | [], ts => ts
  | _ :: ns, t :: ts => streamSortStart t :: sortZippedTemplates ns ts
/-- Models lag_calc (lag_calc.py lines 125-229).  Returns the catalog (or
the propagated exception) together with the post-state of the
caller-supplied templates; the delay loop, which performs the in-place
sorting, never raises, so the post-state is the same on both branches.  The
guard on the number of detections of a template (line 227) mirrors the
source, where Pool(processes=0) would fail. -/
def lag_calc (sched : List (ℕ × Event) → List (ℕ × Event)) (xc : List ℚ → List ℚ → List ℚ)
    (detections : List Detection) (detect_data : List Trace)
    (template_names : List String) (templates : List (List Trace))
    (shift_len min_cc : ℚ) : Except PyErr (List Event) × List (List Trace) :=
  let delays := delayTable template_names templates
  let zippedS := zippedSorted template_names templates
  let cat : Except PyErr (List Event) :=
    match buildDetectStreams zippedS delays shift_len detections detect_data with
    | Except.error e => Except.error e
    | Except.ok detect_streams =>
      Except.ok (zippedS.flatMap fun tp =>
        let tds := (detect_streams.filter fun ds => ds.1 == tp.1).map Prod.snd
        if 0 < tds.length then dayLoop sched xc tds tp.2 min_cc else [])
  (cat, sortZippedTemplates template_names templates)
/-- A pick justified by a template trace: some trace of the template carries
the same station and channel code as the pick, was matched in the detection
stream, its correlation peak is strictly above min_cc, and the pick time is
the start time of the matched image plus argmax samples times delta. -/
def Justified (xc : List ℚ → List ℚ → List ℚ) (detection : List Trace) (min_cc : ℚ)
    (template : List Trace) (p : Pick) : Prop :=
  ∃ tr ∈ template, ∃ im,
    (select detection tr.stats.station tr.stats.channel).head? = some im ∧
    p.station = tr.stats.station ∧ p.channel = tr.stats.channel ∧
    min_cc < amax (xc tr.data im.data) ∧
    p.time = im.stats.starttime + (argmax (xc tr.data im.data) : ℚ) * im.stats.delta ∧
    p.phase = phaseOf tr.stats.channel
/-- An s_stachans entry justified by a template trace: the recorded station,
channel, peak and pick time all come from a horizontal template trace whose
peak is strictly above min_cc. -/
def GoodEntry (xc : List ℚ → List ℚ → List ℚ) (detection : List Trace) (min_cc : ℚ)
    (template : List Trace) (e : String × String × ℚ × ℚ) : Prop :=
  ∃ tr ∈ template, ∃ im,
    (select detection tr.stats.station tr.stats.channel).head? = some im ∧
    e.1 = tr.stats.station ∧ e.2.1 = tr.stats.channel ∧
    (tr.stats.channel.data.getLast? = some 'E' ∨ tr.stats.channel.data.getLast? = some 'N') ∧
    min_cc < amax (xc tr.data im.data) ∧
    e.2.2.1 = amax (xc tr.data im.data) ∧
    e.2.2.2 = im.stats.starttime + (argmax (xc tr.data im.data) : ℚ) * im.stats.delta
def fixStats (sta chan : String) : TraceStats := ⟨"NZ", sta, chan, 1, 1, 0⟩
def tplE : Trace := ⟨fixStats "STA" "HHE", [3]⟩
def tplN : Trace := ⟨fixStats "STA" "HHN", [2]⟩
def tplZ : Trace := ⟨fixStats "STA" "HHZ", [3]⟩
def datE : Trace := ⟨fixStats "STA" "HHE", [0]⟩
def datN : Trace := ⟨fixStats "STA" "HHN", [0]⟩
def datZ : Trace := ⟨fixStats "STA" "HHZ", [0, 0, 0]⟩
def xcTpl : List ℚ → List ℚ → List ℚ := fun t _ => t
def datX : Trace := ⟨fixStats "STX" "HHZ", [0]⟩
def tplLate : Trace := ⟨⟨"NZ", "STB", "HHN", 1, 1, 5⟩, [2]⟩
/-- Claim C5 as stated: in the S arbitration, when the station already has a
recorded best and the current peak is above min_cc and above the recorded
peak, the emitted S pick carries the current channel and time AND the
s_stachans entry of the station is updated to the current (channel, peak,
pick time). -/
def claimC5 : Prop :=
  ∀ (xc : List ℚ → List ℚ → List ℚ) (detection : List Trace) (min_cc : ℚ)
    (st : CLState) (tr im : Trace) (b_chan : String) (b_peak b_time : ℚ),
    (select detection tr.stats.station tr.stats.channel).head? = some im →
    (tr.stats.channel.data.getLast? = some 'E' ∨ tr.stats.channel.data.getLast? = some 'N') →
    lookupS st.s_stachans tr.stats.station = some (b_chan, b_peak, b_time) →
    min_cc < amax (xc tr.data im.data) →
    b_peak < amax (xc tr.data im.data) →
    (channelStep xc detection min_cc st tr).picks = st.picks ++
      [⟨tr.stats.network, tr.stats.station, tr.stats.channel,
        im.stats.starttime + (argmax (xc tr.data im.data) : ℚ) * im.stats.delta,
        some PhaseHint.S⟩] ∧
    lookupS (channelStep xc detection min_cc st tr).s_stachans tr.stats.station =
      some (tr.stats.channel, amax (xc tr.data im.data),
        im.stats.starttime + (argmax (xc tr.data im.data) : ℚ) * im.stats.delta)
/-- Specification-side description of the Window Extractor, written from the
spec (sections 3 and 4.2): for a continuous trace, find the template trace
with the same (station, channel); when absent the channel is dropped; when
present the window is the trimmed copy on
[detect_time - shift_len + offset, detect_time + offset + shift_len + duration]
with offset the delay of that channel and duration its sample count divided
by its sample rate.  Compared below against the lag_calc implementation. -/
def windowSpec (d : Detection) (shift_len : ℚ) (tpl : List Trace) (tr : Trace) :
    Option Trace :=
  match tpl.filter fun t =>
      t.stats.station == tr.stats.station && t.stats.channel == tr.stats.channel with
  | [] => none
  | ttr :: _ =>
    let offset := ttr.stats.starttime - minStarttime tpl
    let duration := (ttr.data.length : ℚ) / ttr.stats.sampling_rate
    some (trimTrace tr (d.detect_time - shift_len + offset)
      (d.detect_time + offset + shift_len + duration))
theorem lookupS_mem {l : List (String × String × ℚ × ℚ)} {sta : String}
    {v : String × ℚ × ℚ} (h : lookupS l sta = some v) : (sta, v) ∈ l := by
  induction l with
  | nil => simp [lookupS] at h
  | cons e rest ih =>
    rw [lookupS] at h
    by_cases he : e.1 == sta
    · rw [if_pos he] at h
      have he2 : e.1 = sta := by simpa using he
      have : e = (sta, v) := by
        cases e with
        | mk a b => cases h; cases he2; rfl
      rw [← this]; exact List.mem_cons_self _ _
    · rw [if_neg he] at h
      exact List.mem_cons_of_mem _ (ih h)
theorem phaseOf_Z {c : String} (h : c.data.getLast? = some 'Z') :
    phaseOf c = some PhaseHint.P := by
  unfold phaseOf; rw [h]; rfl
theorem phaseOf_EN {c : String}
    (h : c.data.getLast? = some 'E' ∨ c.data.getLast? = some 'N') :
    phaseOf c = some PhaseHint.S := by
  unfold phaseOf
  cases h with
  | inl h => rw [h]; rfl
  | inr h => rw [h]; rfl
theorem phaseOf_none {c : String} (h1 : ¬ c.data.getLast? = some 'Z')
    (h2 : ¬ (c.data.getLast? = some 'E' ∨ c.data.getLast? = some 'N')) :
    phaseOf c = none := by
  unfold phaseOf
  split
  · rename_i h; exact absurd h h1
  · rename_i h; exact absurd (Or.inl h) h2
  · rename_i h; exact absurd (Or.inr h) h2
  · rfl
theorem channelStep_justified (xc : List ℚ → List ℚ → List ℚ) (detection : List Trace)
    (min_cc : ℚ) (template : List Trace) (st : CLState) (tr : Trace) (htr : tr ∈ template)
    (hpicks : ∀ p ∈ st.picks, Justified xc detection min_cc template p)
    (hentries : ∀ e ∈ st.s_stachans, GoodEntry xc detection min_cc template e) :
    (∀ p ∈ (channelStep xc detection min_cc st tr).picks,
        Justified xc detection min_cc template p) ∧
    (∀ e ∈ (channelStep xc detection min_cc st tr).s_stachans,
        GoodEntry xc detection min_cc template e) := by
  unfold channelStep
  dsimp only
  split
  · exact ⟨hpicks, hentries⟩
  rename_i im hsel
  split
  case isFalse => exact ⟨hpicks, hentries⟩
  rename_i hcc
  split
  case isTrue hZ =>
    refine ⟨?_, hentries⟩
    intro p hp
    rcases List.mem_append.mp hp with hold | hnew
    · exact hpicks p hold
    · rcases List.mem_singleton.mp hnew with rfl
      exact ⟨tr, htr, im, hsel, rfl, rfl, hcc, rfl, (phaseOf_Z hZ).symm⟩
  case isFalse hnZ =>
    split
    case isFalse hnEN =>
      refine ⟨?_, hentries⟩
      intro p hp
      rcases List.mem_append.mp hp with hold | hnew
      · exact hpicks p hold
      · rcases List.mem_singleton.mp hnew with rfl
        exact ⟨tr, htr, im, hsel, rfl, rfl, hcc, rfl, (phaseOf_none hnZ hnEN).symm⟩
    case isTrue hEN =>
      cases hlk : lookupS st.s_stachans tr.stats.station with
      | none =>
        dsimp only
        constructor
        · intro p hp
          rcases List.mem_append.mp hp with hold | hnew
          · exact hpicks p hold
          · rcases List.mem_singleton.mp hnew with rfl
            exact ⟨tr, htr, im, hsel, rfl, rfl, hcc, rfl, (phaseOf_EN hEN).symm⟩
        · intro e he
          rcases List.mem_append.mp he with hold | hnew
          · exact hentries e hold
          · rcases List.mem_singleton.mp hnew with rfl
            exact ⟨tr, htr, im, hsel, rfl, rfl, hEN, hcc, rfl, rfl⟩
      | some v =>
        obtain ⟨b_chan, b_peak, b_time⟩ := v
        dsimp only
        split
        case isTrue =>
          refine ⟨?_, hentries⟩
          intro p hp
          rcases List.mem_append.mp hp with hold | hnew
          · exact hpicks p hold
          · rcases List.mem_singleton.mp hnew with rfl
            exact ⟨tr, htr, im, hsel, rfl, rfl, hcc, rfl, (phaseOf_EN hEN).symm⟩
        case isFalse =>
          refine ⟨?_, hentries⟩
          intro p hp
          rcases List.mem_append.mp hp with hold | hnew
          · exact hpicks p hold
          · rcases List.mem_singleton.mp hnew with rfl
            obtain ⟨tr0, htr0, im0, hsel0, h1, h2, h3, h4, h5, h6⟩ :=
              hentries _ (lookupS_mem hlk)
            exact ⟨tr0, htr0, im0, hsel0, h1, h2, h4, h6, (phaseOf_EN h3).symm⟩
theorem channelFold_justified (xc : List ℚ → List ℚ → List ℚ) (detection : List Trace)
    (min_cc : ℚ) (template : List Trace) :
    ∀ (l : List Trace) (st : CLState), (∀ tr ∈ l, tr ∈ template) →
    (∀ p ∈ st.picks, Justified xc detection min_cc template p) →
    (∀ e ∈ st.s_stachans, GoodEntry xc detection min_cc template e) →
    ∀ p ∈ (l.foldl (channelStep xc detection min_cc) st).picks,
      Justified xc detection min_cc template p := by
  intro l
  induction l with
  | nil => intro st _ hp _; simpa using hp
  | cons a l ih =>
    intro st hsub hp he
    have step := channelStep_justified xc detection min_cc template st a
      (hsub a (List.mem_cons_self a l)) hp he
    exact ih _ (fun tr h => hsub tr (List.mem_cons_of_mem a h)) step.1 step.2
theorem channelLoop_justified (xc : List ℚ → List ℚ → List ℚ)
    (detection template : List Trace) (min_cc : ℚ) :
    ∀ p ∈ (channelLoop xc detection template min_cc).picks,
      Justified xc detection min_cc template p := by
  intro p hp
  exact channelFold_justified xc detection min_cc template template ⟨[], [], []⟩
    (fun _ h => h) (by intro q hq; cases hq) (by intro e he; cases he) p hp
theorem channelStep_skip (xc : List ℚ → List ℚ → List ℚ) (detection : List Trace)
    (min_cc : ℚ) (st : CLState) (tr : Trace)
    (h : ∀ im, (select detection tr.stats.station tr.stats.channel).head? = some im →
         amax (xc tr.data im.data) ≤ min_cc) :
    channelStep xc detection min_cc st tr = st := by
  unfold channelStep
  dsimp only
  cases hsel : (select detection tr.stats.station tr.stats.channel).head? with
  | none => rfl
  | some im =>
    dsimp only
    rw [if_neg (not_lt.mpr (h im hsel))]
/-- C1 evidence: with two horizontal channels of one station whose peaks are
both strictly above min_cc, the event keeps two S picks for that station. -/
theorem C1_two_S_picks_one_station :
    (channelLoop xcTpl [datE, datN] [tplE, tplN] 1).picks =
      [⟨"NZ", "STA", "HHE", 0, some PhaseHint.S⟩,
       ⟨"NZ", "STA", "HHE", 0, some PhaseHint.S⟩] ∧
    ((channelLoop xcTpl [datE, datN] [tplE, tplN] 1).picks.filter
        (fun p => p.station == "STA" && p.phase == some PhaseHint.S)).length = 2 := by
  constructor <;>
    norm_num +decide [channelLoop, channelStep, select, amax, argmax, lookupS,
      tplE, tplN, datE, datN, xcTpl, fixStats, List.filter]
/-- C3: every pick comes from a channel whose peak is strictly above min_cc. -/
theorem C3_picks_strictly_above_min_cc (xc : List ℚ → List ℚ → List ℚ)
    (detection template : List Trace) (min_cc : ℚ) :
    (∀ p ∈ (channelLoop xc detection template min_cc).picks,
       ∃ tr ∈ template, ∃ im,
         (select detection tr.stats.station tr.stats.channel).head? = some im ∧
         p.station = tr.stats.station ∧ p.channel = tr.stats.channel ∧
         min_cc < amax (xc tr.data im.data)) ∧
    (∀ (st : CLState) (tr : Trace),
       (∀ im, (select detection tr.stats.station tr.stats.channel).head? = some im →
          amax (xc tr.data im.data) ≤ min_cc) →
       (channelStep xc detection min_cc st tr).picks = st.picks) := by
  constructor
  · intro p hp
    obtain ⟨tr, htr, im, hsel, h1, h2, h3, _, _⟩ :=
      channelLoop_justified xc detection template min_cc p hp
    exact ⟨tr, htr, im, hsel, h1, h2, h3⟩
  · intro st tr h
    rw [channelStep_skip xc detection min_cc st tr h]
theorem C3_witness :
    (∃ tr ∈ [tplZ], ∃ im,
       (select [datZ] tr.stats.station tr.stats.channel).head? = some im ∧
       (⟨"NZ", "STA", "HHZ", 0, some PhaseHint.P⟩ : Pick).station = tr.stats.station ∧
       (⟨"NZ", "STA", "HHZ", 0, some PhaseHint.P⟩ : Pick).channel = tr.stats.channel ∧
       (1 : ℚ) < amax (xcTpl tr.data im.data)) ∧
    (channelStep xcTpl [datZ] 5 ⟨[], [], []⟩ tplZ).picks = [] := by
  constructor
  · exact (C3_picks_strictly_above_min_cc xcTpl [datZ] [tplZ] 1).1
      ⟨"NZ", "STA", "HHZ", 0, some PhaseHint.P⟩
      (by norm_num +decide [channelLoop, channelStep, select, amax, argmax,
        tplZ, datZ, xcTpl, fixStats])
  · have h := (C3_picks_strictly_above_min_cc xcTpl [datZ] [tplZ] 5).2 ⟨[], [], []⟩ tplZ
    rw [h]
    intro im him
    simp only [select, tplZ, datZ, fixStats, List.filter, List.head?] at him
    norm_num +decide at him
    rw [← him]
    norm_num [amax, xcTpl, tplZ, fixStats]
/-- C8: pick time equals image start plus argmax times delta; phase follows
the channel suffix. -/
theorem C8_time_formula_and_phase (xc : List ℚ → List ℚ → List ℚ)
    (detection template : List Trace) (min_cc : ℚ) (p : Pick)
    (hp : p ∈ (channelLoop xc detection template min_cc).picks) :
    p.phase = phaseOf p.channel ∧
    ∃ tr ∈ template, tr.stats.station = p.station ∧ tr.stats.channel = p.channel ∧
      ∃ im, (select detection tr.stats.station tr.stats.channel).head? = some im ∧
        p.time = im.stats.starttime + (argmax (xc tr.data im.data) : ℚ) * im.stats.delta := by
  obtain ⟨tr, htr, im, hsel, h1, h2, h3, h4, h5⟩ :=
    channelLoop_justified xc detection template min_cc p hp
  exact ⟨by rw [h5, h2], tr, htr, h1.symm, h2.symm, im, hsel, h4⟩
theorem C8_witness :
    (⟨"NZ", "STA", "HHZ", 0, some PhaseHint.P⟩ : Pick).phase =
        phaseOf (⟨"NZ", "STA", "HHZ", 0, some PhaseHint.P⟩ : Pick).channel ∧
    ∃ tr ∈ [tplZ],
      tr.stats.station = (⟨"NZ", "STA", "HHZ", 0, some PhaseHint.P⟩ : Pick).station ∧
      tr.stats.channel = (⟨"NZ", "STA", "HHZ", 0, some PhaseHint.P⟩ : Pick).channel ∧
      ∃ im, (select [datZ] tr.stats.station tr.stats.channel).head? = some im ∧
        (⟨"NZ", "STA", "HHZ", 0, some PhaseHint.P⟩ : Pick).time =
          im.stats.starttime + (argmax (xcTpl tr.data im.data) : ℚ) * im.stats.delta :=
  C8_time_formula_and_phase xcTpl [datZ] [tplZ] 1
    ⟨"NZ", "STA", "HHZ", 0, some PhaseHint.P⟩
    (by norm_num +decide [channelLoop, channelStep, select, amax, argmax,
      tplZ, datZ, xcTpl, fixStats])
theorem C5_counterexample : ¬ claimC5 := by
  intro h
  have hc := (h xcTpl [datN] 1 ⟨[("STA", "HHE", 1, 0)], [], []⟩ tplN datN "HHE" 1 0
    (by norm_num +decide [select, tplN, datN, fixStats])
    (by norm_num +decide [tplN, fixStats])
    (by norm_num +decide [lookupS, tplN, fixStats])
    (by norm_num [amax, xcTpl, tplN, fixStats])
    (by norm_num [amax, xcTpl, tplN, fixStats])).2
  norm_num +decide [channelStep, select, amax, argmax, lookupS, tplN, datN, xcTpl,
    fixStats] at hc
/-- C5 amended: the emitted S pick does carry the current channel and time,
but s_stachans (and used_s_sta) are left unchanged. -/
theorem C5_amended_pick_own_state_unchanged (xc : List ℚ → List ℚ → List ℚ)
    (detection : List Trace) (min_cc : ℚ) (st : CLState) (tr im : Trace)
    (b_chan : String) (b_peak b_time : ℚ)
    (hsel : (select detection tr.stats.station tr.stats.channel).head? = some im)
    (hEN : tr.stats.channel.data.getLast? = some 'E' ∨
           tr.stats.channel.data.getLast? = some 'N')
    (hlk : lookupS st.s_stachans tr.stats.station = some (b_chan, b_peak, b_time))
    (hcc : min_cc < amax (xc tr.data im.data))
    (hbp : b_peak < amax (xc tr.data im.data)) :
    (channelStep xc detection min_cc st tr).picks = st.picks ++
      [⟨tr.stats.network, tr.stats.station, tr.stats.channel,
        im.stats.starttime + (argmax (xc tr.data im.data) : ℚ) * im.stats.delta,
        some PhaseHint.S⟩] ∧
    (channelStep xc detection min_cc st tr).s_stachans = st.s_stachans ∧
    (channelStep xc detection min_cc st tr).used_s_sta = st.used_s_sta := by
  have hnZ : ¬ tr.stats.channel.data.getLast? = some 'Z' := by
    rcases hEN with h | h <;> rw [h] <;> intro hc <;>
      exact absurd (Option.some.inj hc) (by decide)
  unfold channelStep
  dsimp only
  rw [hsel]
  dsimp only
  rw [if_pos hcc, if_neg hnZ, if_pos hEN, hlk]
  dsimp only
  rw [if_pos hcc, if_pos hbp]
  exact ⟨rfl, rfl, rfl⟩
theorem C5_amended_witness :
    (channelStep xcTpl [datN] 1 ⟨[("STA", "HHE", 1, 0)], [], []⟩ tplN).picks =
      ([] : List Pick) ++
      [⟨tplN.stats.network, tplN.stats.station, tplN.stats.channel,
        datN.stats.starttime + (argmax (xcTpl tplN.data datN.data) : ℚ) * datN.stats.delta,
        some PhaseHint.S⟩] ∧
    (channelStep xcTpl [datN] 1 ⟨[("STA", "HHE", 1, 0)], [], []⟩ tplN).s_stachans =
      [("STA", "HHE", 1, 0)] ∧
    (channelStep xcTpl [datN] 1 ⟨[("STA", "HHE", 1, 0)], [], []⟩ tplN).used_s_sta = [] :=
  C5_amended_pick_own_state_unchanged xcTpl [datN] 1
    ⟨[("STA", "HHE", 1, 0)], [], []⟩ tplN datN "HHE" 1 0
    (by norm_num +decide [select, tplN, datN, fixStats])
    (by norm_num +decide [tplN, fixStats])
    (by norm_num +decide [lookupS, tplN, fixStats])
    (by norm_num [amax, xcTpl, tplN, fixStats])
    (by norm_num [amax, xcTpl, tplN, fixStats])
theorem minStarttime_le {st : List Trace} {t : Trace} (ht : t ∈ st) :
    minStarttime st ≤ t.stats.starttime := by
  unfold minStarttime
  have hmem : t ∈ streamSortStart st :=
    (List.perm_insertionSort traceLe st).mem_iff.mpr ht
  have hsorted : List.Sorted traceLe (streamSortStart st) :=
    List.sorted_insertionSort traceLe st
  cases hs : streamSortStart st with
  | nil => rw [hs] at hmem; cases hmem
  | cons h rest =>
    rw [hs] at hmem hsorted
    rcases List.mem_cons.mp hmem with rfl | hmem
    · exact le_refl _
    · exact (List.sorted_cons.mp hsorted).1 t hmem
theorem minStarttime_mem {st : List Trace} (h : st ≠ []) :
    ∃ t ∈ st, t.stats.starttime = minStarttime st := by
  unfold minStarttime
  cases hs : streamSortStart st with
  | nil =>
    exfalso
    have := (List.perm_insertionSort traceLe st).length_eq
    rw [show List.insertionSort traceLe st = streamSortStart st from rfl, hs] at this
    exact h (List.eq_nil_of_length_eq_zero this.symm)
  | cons hd rest =>
    refine ⟨hd, ?_, rfl⟩
    have : hd ∈ streamSortStart st := by rw [hs]; exact List.mem_cons_self hd rest
    exact (List.perm_insertionSort traceLe st).mem_iff.mp this
/-- C7: the delay table of each zipped template maps each channel to its
start time minus the template minimum start time; the minimum channel has
offset exactly zero and all offsets are nonnegative. -/
theorem C7_delay_table (template_names : List String) (templates : List (List Trace))
    (nm : String) (tpl : List Trace) (hmem : (nm, tpl) ∈ template_names.zip templates)
    (hne : tpl ≠ []) :
    (nm, tempDelays tpl) ∈ delayTable template_names templates ∧
    (∀ t ∈ tpl,
      (t.stats.station, t.stats.channel, t.stats.starttime - minStarttime tpl) ∈
        tempDelays tpl) ∧
    (∀ e ∈ tempDelays tpl, ∃ t ∈ tpl,
      e = (t.stats.station, t.stats.channel, t.stats.starttime - minStarttime tpl) ∧
      0 ≤ e.2.2) ∧
    (∃ e ∈ tempDelays tpl, e.2.2 = 0) := by
  refine ⟨?_, ?_, ?_, ?_⟩
  · exact List.mem_map_of_mem (fun p => (p.1, tempDelays p.2)) hmem
  · intro t ht
    exact List.mem_map_of_mem _ ht
  · intro e he
    obtain ⟨t, ht, rfl⟩ := List.mem_map.mp he
    exact ⟨t, ht, rfl, by simp [sub_nonneg, minStarttime_le ht]⟩
  · obtain ⟨t, ht, hmin⟩ := minStarttime_mem hne
    refine ⟨(t.stats.station, t.stats.channel, t.stats.starttime - minStarttime tpl),
      List.mem_map_of_mem _ ht, by simp [hmin]⟩
theorem C7_witness :
    ("tpl1", tempDelays [tplE, tplN]) ∈ delayTable ["tpl1"] [[tplE, tplN]] ∧
    (∀ t ∈ [tplE, tplN],
      (t.stats.station, t.stats.channel,
        t.stats.starttime - minStarttime [tplE, tplN]) ∈ tempDelays [tplE, tplN]) ∧
    (∀ e ∈ tempDelays [tplE, tplN], ∃ t ∈ [tplE, tplN],
      e = (t.stats.station, t.stats.channel,
        t.stats.starttime - minStarttime [tplE, tplN]) ∧ 0 ≤ e.2.2) ∧
    (∃ e ∈ tempDelays [tplE, tplN], e.2.2 = 0) :=
  C7_delay_table ["tpl1"] [[tplE, tplN]] "tpl1" [tplE, tplN]
    (by norm_num +decide [List.zip]) (by norm_num +decide)
theorem tagEvents_fst_ge : ∀ (k : ℕ) (l : List Event) (b : ℕ × Event),
    b ∈ tagEvents k l → k ≤ b.1 := by
  intro k l
  induction l generalizing k with
  | nil => intro b hb; cases hb
  | cons e es ih =>
    intro b hb
    rcases List.mem_cons.mp hb with rfl | hb
    · exact le_refl _
    · exact Nat.le_of_succ_le (ih (k + 1) b hb)
theorem tagEvents_pairwise_lt (k : ℕ) (l : List Event) :
    List.Pairwise tagLt (tagEvents k l) := by
  induction l generalizing k with
  | nil => exact List.Pairwise.nil
  | cons e es ih =>
    refine List.Pairwise.cons ?_ (ih (k + 1))
    intro b hb
    exact Nat.lt_of_succ_le (tagEvents_fst_ge (k + 1) es b hb)
theorem tagEvents_map_snd : ∀ (k : ℕ) (l : List Event),
    (tagEvents k l).map Prod.snd = l := by
  intro k l
  induction l generalizing k with
  | nil => rfl
  | cons e es ih => simp [tagEvents, ih]
theorem sorted_lt_of_sorted_le {s : List (ℕ × Event)}
    (hle : List.Pairwise tagLe s) (hnd : (s.map Prod.fst).Nodup) :
    List.Pairwise tagLt s := by
  induction s with
  | nil => exact List.Pairwise.nil
  | cons a t ih =>
    rcases List.pairwise_cons.mp hle with ⟨ha, ht⟩
    rcases List.nodup_cons.mp hnd with ⟨hna, hnt⟩
    refine List.Pairwise.cons ?_ (ih ht hnt)
    intro b hb
    refine lt_of_le_of_ne (ha b hb) ?_
    intro hEq
    exact hna (hEq ▸ List.mem_map_of_mem Prod.fst hb)
theorem sortTag_of_perm {l : List (ℕ × Event)} {evs : List Event}
    (h : l.Perm (tagEvents 0 evs)) :
    List.insertionSort tagLe l = tagEvents 0 evs := by
  have hperm : List.Perm (List.insertionSort tagLe l) (tagEvents 0 evs) :=
    (List.perm_insertionSort tagLe l).trans h
  have hsorted_le : List.Sorted tagLe (List.insertionSort tagLe l) :=
    List.sorted_insertionSort tagLe l
  have htagged : List.Pairwise tagLt (tagEvents 0 evs) := tagEvents_pairwise_lt 0 evs
  have hnd_t : ((tagEvents 0 evs).map Prod.fst).Nodup := by
    have hp : List.Pairwise (fun a b : ℕ × Event => a.1 < b.1) (tagEvents 0 evs) := htagged
    exact (List.pairwise_map.mpr hp).imp ne_of_lt
  have hnd_s : ((List.insertionSort tagLe l).map Prod.fst).Nodup :=
    (hperm.map Prod.fst).nodup_iff.mpr hnd_t
  have hsorted_lt : List.Sorted tagLt (List.insertionSort tagLe l) :=
    sorted_lt_of_sorted_le hsorted_le hnd_s
  exact List.eq_of_perm_of_sorted hperm hsorted_lt htagged
theorem dayLoop_eq (sched : List (ℕ × Event) → List (ℕ × Event))
    (hsched : ∀ l : List (ℕ × Event), (sched l).Perm l)
    (xc : List ℚ → List ℚ → List ℚ) (dets : List (List Trace)) (tpl : List Trace)
    (mc : ℚ) :
    dayLoop sched xc dets tpl mc = dets.map fun d => channelLoop xc d tpl mc := by
  unfold dayLoop
  dsimp only
  rw [sortTag_of_perm (hsched _), tagEvents_map_snd]
theorem buildDetectStreams_fst (zippedS : List (String × List Trace))
    (delays : List (String × List (String × String × ℚ))) (shift_len : ℚ) :
    ∀ (dets : List Detection) (data : List Trace) (ds : List (String × List Trace)),
    buildDetectStreams zippedS delays shift_len dets data = Except.ok ds →
    ds.map Prod.fst = dets.map Detection.template_name := by
  intro dets
  induction dets with
  | nil =>
    intro data ds h
    simp only [buildDetectStreams] at h
    cases h
    rfl
  | cons d rest ih =>
    intro data ds h
    simp only [buildDetectStreams, Bind.bind, Except.bind] at h
    cases hs : detectStreamTraces zippedS delays shift_len d data with
    | error e => rw [hs] at h; simp at h
    | ok s =>
      rw [hs] at h
      dsimp only at h
      cases hr : buildDetectStreams zippedS delays shift_len rest data with
      | error e => rw [hr] at h; simp at h
      | ok restS =>
        rw [hr] at h
        simp only [Except.ok.injEq] at h
        rw [← h]
        simp [ih data restS hr]
/-- C2: for every completion order of the concurrent tasks, the result
sequence groups events by template in caller-supplied order and, within each
template, in input detection order. -/
theorem C2_result_order (sched : List (ℕ × Event) → List (ℕ × Event))
    (xc : List ℚ → List ℚ → List ℚ) (detections : List Detection)
    (detect_data : List Trace) (template_names : List String)
    (templates : List (List Trace)) (shift_len min_cc : ℚ)
    (hsched : ∀ l : List (ℕ × Event), (sched l).Perm l) (evs : List Event)
    (hok : (lag_calc sched xc detections detect_data template_names templates
        shift_len min_cc).1 = Except.ok evs) :
    ∃ ds, buildDetectStreams (zippedSorted template_names templates)
        (delayTable template_names templates) shift_len detections detect_data =
        Except.ok ds ∧
      ds.map Prod.fst = detections.map Detection.template_name ∧
      evs = (zippedSorted template_names templates).flatMap fun tp =>
        ((ds.filter fun x => x.1 == tp.1).map Prod.snd).map fun w =>
          channelLoop xc w tp.2 min_cc := by
  unfold lag_calc at hok
  dsimp only at hok
  cases hb : buildDetectStreams (zippedSorted template_names templates)
      (delayTable template_names templates) shift_len detections detect_data with
  | error e => rw [hb] at hok; cases hok
  | ok ds =>
    rw [hb] at hok
    refine ⟨ds, rfl, buildDetectStreams_fst _ _ _ _ _ _ hb, ?_⟩
    have heq := Except.ok.inj hok
    rw [← heq]
    have hbr : ∀ tp : String × List Trace,
        (let tds := (ds.filter fun x => x.1 == tp.1).map Prod.snd;
          if 0 < tds.length then dayLoop sched xc tds tp.2 min_cc else []) =
        ((ds.filter fun x => x.1 == tp.1).map Prod.snd).map fun w =>
          channelLoop xc w tp.2 min_cc := by
      intro tp
      dsimp only
      by_cases h0 : 0 < ((ds.filter fun x => x.1 == tp.1).map Prod.snd).length
      · rw [if_pos h0, dayLoop_eq sched hsched]
      · rw [if_neg h0]
        have hnil : (ds.filter fun x => x.1 == tp.1).map Prod.snd = [] :=
          List.eq_nil_of_length_eq_zero (Nat.eq_zero_of_not_pos h0)
        rw [hnil]
        rfl
    exact congrArg _ (funext hbr)
theorem C2_witness :
    ∃ ds, buildDetectStreams (zippedSorted ["a"] [[tplZ]]) (delayTable ["a"] [[tplZ]]) 1
        [⟨"a", 0⟩, ⟨"a", 1⟩] [datZ] = Except.ok ds ∧
      ds.map Prod.fst =
        ([⟨"a", 0⟩, ⟨"a", 1⟩] : List Detection).map Detection.template_name ∧
      [(⟨[⟨"NZ", "STA", "HHZ", 0, some PhaseHint.P⟩]⟩ : Event),
       (⟨[⟨"NZ", "STA", "HHZ", 0, some PhaseHint.P⟩]⟩ : Event)] =
        (zippedSorted ["a"] [[tplZ]]).flatMap fun tp =>
          ((ds.filter fun x => x.1 == tp.1).map Prod.snd).map fun w =>
            channelLoop xcTpl w tp.2 1 :=
  C2_result_order List.reverse xcTpl [⟨"a", 0⟩, ⟨"a", 1⟩] [datZ] ["a"] [[tplZ]] 1 1
    (fun l => l.reverse_perm)
    [⟨[⟨"NZ", "STA", "HHZ", 0, some PhaseHint.P⟩]⟩,
     ⟨[⟨"NZ", "STA", "HHZ", 0, some PhaseHint.P⟩]⟩]
    (by norm_num +decide [lag_calc, buildDetectStreams, detectStreamTraces, firstMatch,
      select, trimTrace, delayTable, zippedSorted, tempDelays, minStarttime,
      streamSortStart, List.insertionSort, List.orderedInsert, dayLoop, tagEvents,
      channelLoop, channelStep, amax, argmax, lookupS, Bind.bind, Except.bind,
      List.range, List.range.loop, tplZ, datZ, xcTpl, fixStats])
theorem filter_chan_length_le_one {tpl : List Trace}
    (hnd : (tpl.map fun t => (t.stats.station, t.stats.channel)).Nodup)
    (sta chan : String) :
    (tpl.filter fun t => t.stats.station == sta && t.stats.channel == chan).length ≤ 1 := by
  induction tpl with
  | nil => simp
  | cons a l ih =>
    rw [List.map_cons] at hnd
    rcases List.nodup_cons.mp hnd with ⟨hka, hkl⟩
    by_cases hp : (a.stats.station == sta && a.stats.channel == chan) = true
    · rw [List.filter_cons, if_pos hp]
      have hnil : (l.filter fun t => t.stats.station == sta && t.stats.channel == chan) = [] := by
        rw [List.filter_eq_nil_iff]
        intro b hb hpb
        rcases (Bool.and_eq_true _ _).mp hp with ⟨ha1, ha2⟩
        rcases (Bool.and_eq_true _ _).mp hpb with ⟨hb1, hb2⟩
        apply hka
        have : (b.stats.station, b.stats.channel) = (a.stats.station, a.stats.channel) := by
          rw [eq_of_beq ha1, eq_of_beq ha2, eq_of_beq hb1, eq_of_beq hb2]
        rw [← this]
        exact List.mem_map_of_mem _ hb
      rw [hnil]
      exact le_refl 1
    · rw [List.filter_cons, if_neg (by simpa using hp)]
      exact ih hkl
theorem filter_eq_of_perm_of_le_one {l1 l2 : List Trace} (hperm : List.Perm l1 l2)
    {p : Trace → Bool} (hle : (l1.filter p).length ≤ 1) :
    l1.filter p = l2.filter p := by
  have hp : List.Perm (l1.filter p) (l2.filter p) := hperm.filter p
  cases h1 : l1.filter p with
  | nil =>
    rw [h1] at hp
    exact (hp.symm.eq_nil).symm
  | cons x xs =>
    rw [h1] at hp hle
    cases xs with
    | nil => exact (List.perm_singleton.mp hp.symm).symm
    | cons y ys => simp at hle
theorem firstMatch_map {α β : Type} (f : α → β) (q : β → Bool) (p : α → Bool)
    (hqp : ∀ a, q (f a) = p a) (l : List α) :
    firstMatch q (l.map f) = (firstMatch p l).map f := by
  induction l with
  | nil => rfl
  | cons a t ih =>
    unfold firstMatch at ih ⊢
    rw [List.map_cons, List.filter_cons, List.filter_cons, hqp a]
    by_cases hp : p a = true
    · rw [if_pos hp, if_pos hp]
      rfl
    · rw [if_neg hp, if_neg hp]
      exact ih
theorem firstMatch_error {α : Type} {p : α → Bool} {l : List α} {e : PyErr}
    (h : firstMatch p l = Except.error e) : e = PyErr.lookupError := by
  unfold firstMatch at h
  cases hl : l.filter p with
  | nil => rw [hl] at h; exact (Except.error.inj h).symm
  | cons x xs => rw [hl] at h; cases h
theorem firstMatch_ok_mem {α : Type} {p : α → Bool} {l : List α} {x : α}
    (h : firstMatch p l = Except.ok x) : x ∈ l ∧ p x = true := by
  unfold firstMatch at h
  cases hl : l.filter p with
  | nil => rw [hl] at h; cases h
  | cons y ys =>
    rw [hl] at h
    have hy : y ∈ l.filter p := by rw [hl]; exact List.mem_cons_self y ys
    cases h
    exact ⟨List.mem_of_mem_filter hy, List.of_mem_filter hy⟩
theorem firstMatch_of_filter_nonempty {α : Type} {p : α → Bool} {l : List α}
    (h : l.filter p ≠ []) : ∃ x, firstMatch p l = Except.ok x := by
  unfold firstMatch
  cases hl : l.filter p with
  | nil => exact absurd hl h
  | cons y ys => exact ⟨y, rfl⟩
/-- C6: with the template resolved and channel identities unique within the
template, the built detection stream is exactly the continuous data filtered
to the channels present in the template, each trimmed to the spec window;
channels absent from the template are dropped without error. -/
theorem C6_window_extractor (template_names : List String)
    (templates : List (List Trace)) (shift_len : ℚ) (d : Detection)
    (tpl0 : List Trace)
    (hname : firstMatch (fun p => p.1 == d.template_name)
        (template_names.zip templates) = Except.ok (d.template_name, tpl0))
    (hnd : (tpl0.map fun t => (t.stats.station, t.stats.channel)).Nodup) :
    ∀ detect_data : List Trace,
      detectStreamTraces (zippedSorted template_names templates)
        (delayTable template_names templates) shift_len d detect_data =
      Except.ok (detect_data.filterMap (windowSpec d shift_len tpl0)) := by
  have hzS : firstMatch (fun t => t.1 == d.template_name)
      (zippedSorted template_names templates) =
      Except.ok (d.template_name, streamSortStart tpl0) := by
    unfold zippedSorted
    rw [firstMatch_map (fun p => (p.1, streamSortStart p.2))
      (fun t => t.1 == d.template_name) (fun p => p.1 == d.template_name)
      (fun a => rfl) (template_names.zip templates), hname]
    rfl
  have hdel : firstMatch (fun x => x.1 == d.template_name)
      (delayTable template_names templates) =
      Except.ok (d.template_name, tempDelays tpl0) := by
    unfold delayTable
    rw [firstMatch_map (fun p => (p.1, tempDelays p.2))
      (fun x => x.1 == d.template_name) (fun p => p.1 == d.template_name)
      (fun a => rfl) (template_names.zip templates), hname]
    rfl
  intro detect_data
  induction detect_data with
  | nil => rfl
  | cons tr rest ih =>
    have hfil : tpl0.filter (fun t => t.stats.station == tr.stats.station &&
          t.stats.channel == tr.stats.channel) =
        (streamSortStart tpl0).filter (fun t => t.stats.station == tr.stats.station &&
          t.stats.channel == tr.stats.channel) :=
      filter_eq_of_perm_of_le_one (List.perm_insertionSort traceLe tpl0).symm
        (filter_chan_length_le_one hnd _ _)
    simp only [detectStreamTraces, Bind.bind, Except.bind]
    rw [hzS]
    dsimp only
    cases h0 : tpl0.filter (fun t => t.stats.station == tr.stats.station &&
        t.stats.channel == tr.stats.channel) with
    | nil =>
      have hsel : (select (streamSortStart tpl0) tr.stats.station tr.stats.channel).head?
          = none := by
        unfold select
        rw [← hfil, h0]
        rfl
      rw [hsel]
      have hws : windowSpec d shift_len tpl0 tr = none := by
        unfold windowSpec
        rw [h0]
      rw [List.filterMap_cons_none hws]
      exact ih
    | cons ttr tt =>
      have hsel : (select (streamSortStart tpl0) tr.stats.station tr.stats.channel).head?
          = some ttr := by
        unfold select
        rw [← hfil, h0]
        rfl
      rw [hsel]
      dsimp only
      rw [hdel]
      dsimp only
      have hentry : firstMatch (fun e => e.1 == tr.stats.station &&
          e.2.1 == tr.stats.channel) (tempDelays tpl0) =
          Except.ok (ttr.stats.station, ttr.stats.channel,
            ttr.stats.starttime - minStarttime tpl0) := by
        unfold tempDelays
        rw [firstMatch_map
          (fun t => (t.stats.station, t.stats.channel,
            t.stats.starttime - minStarttime tpl0))
          (fun e => e.1 == tr.stats.station && e.2.1 == tr.stats.channel)
          (fun t => t.stats.station == tr.stats.station &&
            t.stats.channel == tr.stats.channel)
          (fun a => rfl) tpl0]
        unfold firstMatch
        rw [h0]
        rfl
      rw [hentry]
      dsimp only
      rw [ih]
      dsimp only
      have hws : windowSpec d shift_len tpl0 tr =
          some (trimTrace tr
            (d.detect_time - shift_len + (ttr.stats.starttime - minStarttime tpl0))
            (d.detect_time + (ttr.stats.starttime - minStarttime tpl0) + shift_len +
              (ttr.data.length : ℚ) / ttr.stats.sampling_rate)) := by
        unfold windowSpec
        rw [h0]
      rw [List.filterMap_cons_some hws]
theorem detectStreamTraces_ok_of_resolved (template_names : List String)
    (templates : List (List Trace)) (shift_len : ℚ) (d : Detection)
    (pr : String × List Trace)
    (hname : firstMatch (fun p => p.1 == d.template_name)
        (template_names.zip templates) = Except.ok pr) :
    ∀ data : List Trace, ∃ ws,
      detectStreamTraces (zippedSorted template_names templates)
        (delayTable template_names templates) shift_len d data = Except.ok ws := by
  have hzS : firstMatch (fun t => t.1 == d.template_name)
      (zippedSorted template_names templates) =
      Except.ok (pr.1, streamSortStart pr.2) := by
    unfold zippedSorted
    rw [firstMatch_map (fun p => (p.1, streamSortStart p.2))
      (fun t => t.1 == d.template_name) (fun p => p.1 == d.template_name)
      (fun a => rfl) (template_names.zip templates), hname]
    rfl
  have hdel : firstMatch (fun x => x.1 == d.template_name)
      (delayTable template_names templates) =
      Except.ok (pr.1, tempDelays pr.2) := by
    unfold delayTable
    rw [firstMatch_map (fun p => (p.1, tempDelays p.2))
      (fun x => x.1 == d.template_name) (fun p => p.1 == d.template_name)
      (fun a => rfl) (template_names.zip templates), hname]
    rfl
  intro data
  induction data with
  | nil => exact ⟨[], rfl⟩
  | cons tr rest ih =>
    obtain ⟨ws, hws⟩ := ih
    simp only [detectStreamTraces, Bind.bind, Except.bind]
    rw [hzS]
    dsimp only
    cases hflt : (streamSortStart pr.2).filter (fun t =>
        t.stats.station == tr.stats.station && t.stats.channel == tr.stats.channel) with
    | nil =>
      have hsel : (select (streamSortStart pr.2) tr.stats.station tr.stats.channel).head?
          = none := by
        unfold select
        rw [hflt]
        rfl
      rw [hsel]
      exact ⟨ws, hws⟩
    | cons t0 tt =>
      have hsel : (select (streamSortStart pr.2) tr.stats.station tr.stats.channel).head?
          = some t0 := by
        unfold select
        rw [hflt]
        rfl
      rw [hsel]
      dsimp only
      rw [hdel]
      dsimp only
      have ht0f : t0 ∈ (streamSortStart pr.2).filter (fun t =>
          t.stats.station == tr.stats.station && t.stats.channel == tr.stats.channel) := by
        rw [hflt]
        exact List.mem_cons_self t0 tt
      have ht0 : t0 ∈ pr.2 :=
        (List.perm_insertionSort traceLe pr.2).mem_iff.mp (List.mem_of_mem_filter ht0f)
      have ht0p : (t0.stats.station == tr.stats.station &&
          t0.stats.channel == tr.stats.channel) = true := (List.mem_filter.mp ht0f).2
      have hne : (tempDelays pr.2).filter (fun e => e.1 == tr.stats.station &&
          e.2.1 == tr.stats.channel) ≠ [] := by
        apply List.ne_nil_of_mem (a := (t0.stats.station, t0.stats.channel,
          t0.stats.starttime - minStarttime pr.2))
        apply List.mem_filter.mpr
        exact ⟨List.mem_map_of_mem _ ht0, ht0p⟩
      obtain ⟨entry, hentry⟩ := firstMatch_of_filter_nonempty hne
      rw [hentry]
      dsimp only
      rw [hws]
      exact ⟨_, rfl⟩
theorem detectStreamTraces_error_of_unresolved (template_names : List String)
    (templates : List (List Trace)) (shift_len : ℚ) (d : Detection)
    (hbad : (template_names.zip templates).filter
        (fun p => p.1 == d.template_name) = [])
    (tr : Trace) (rest : List Trace) :
    detectStreamTraces (zippedSorted template_names templates)
      (delayTable template_names templates) shift_len d (tr :: rest) =
      Except.error PyErr.lookupError := by
  have hzS : firstMatch (fun t => t.1 == d.template_name)
      (zippedSorted template_names templates) = Except.error PyErr.lookupError := by
    unfold zippedSorted
    rw [firstMatch_map (fun p => (p.1, streamSortStart p.2))
      (fun t => t.1 == d.template_name) (fun p => p.1 == d.template_name)
      (fun a => rfl) (template_names.zip templates)]
    unfold firstMatch
    rw [hbad]
    rfl
  simp only [detectStreamTraces, Bind.bind, Except.bind]
  rw [hzS]
theorem buildDetectStreams_error_of_bad (template_names : List String)
    (templates : List (List Trace)) (shift_len : ℚ) (tr : Trace) (rest : List Trace) :
    ∀ detections : List Detection,
    (∃ d ∈ detections, (template_names.zip templates).filter
        (fun p => p.1 == d.template_name) = []) →
    buildDetectStreams (zippedSorted template_names templates)
      (delayTable template_names templates) shift_len detections (tr :: rest) =
      Except.error PyErr.lookupError := by
  intro detections
  induction detections with
  | nil =>
    intro h
    rcases h with ⟨d, hd, _⟩
    cases hd
  | cons d ds ih =>
    intro h
    simp only [buildDetectStreams, Bind.bind, Except.bind]
    by_cases hres : (template_names.zip templates).filter
        (fun p => p.1 == d.template_name) = []
    · rw [detectStreamTraces_error_of_unresolved template_names templates shift_len d
        hres tr rest]
    · obtain ⟨pr, hpr⟩ := firstMatch_of_filter_nonempty hres
      obtain ⟨ws, hws⟩ := detectStreamTraces_ok_of_resolved template_names templates
        shift_len d pr hpr (tr :: rest)
      rw [hws]
      dsimp only
      have hbad2 : ∃ d2 ∈ ds, (template_names.zip templates).filter
          (fun p => p.1 == d2.template_name) = [] := by
        rcases h with ⟨d2, hd2, hflt⟩
        rcases List.mem_cons.mp hd2 with rfl | hd2
        · exact absurd hflt hres
        · exact ⟨d2, hd2, hflt⟩
      rw [ih hbad2]
/-- C9 amended: with at least one continuous trace, a detection whose
template name has no zipped (name, template) pair makes the whole run fail
with a LookupError; and a detection whose name resolves can never fail, in
particular a matched channel always has a delay-table entry. -/
theorem C9_amended_lookup_failure (sched : List (ℕ × Event) → List (ℕ × Event))
    (xc : List ℚ → List ℚ → List ℚ) (detections : List Detection)
    (detect_data : List Trace) (template_names : List String)
    (templates : List (List Trace)) (shift_len min_cc : ℚ)
    (hdata : detect_data ≠ [])
    (hbad : ∃ d ∈ detections, (template_names.zip templates).filter
        (fun p => p.1 == d.template_name) = []) :
    (lag_calc sched xc detections detect_data template_names templates
        shift_len min_cc).1 = Except.error PyErr.lookupError ∧
    (∀ (d : Detection) (pr : String × List Trace) (data : List Trace),
      firstMatch (fun p => p.1 == d.template_name) (template_names.zip templates) =
        Except.ok pr →
      ∃ ws, detectStreamTraces (zippedSorted template_names templates)
        (delayTable template_names templates) shift_len d data = Except.ok ws) := by
  constructor
  · cases detect_data with
    | nil => exact absurd rfl hdata
    | cons tr rest =>
      unfold lag_calc
      dsimp only
      rw [buildDetectStreams_error_of_bad template_names templates shift_len tr rest
        detections hbad]
  · intro d pr data hpr
    exact detectStreamTraces_ok_of_resolved template_names templates shift_len d pr
      hpr data
theorem C9_counterexample :
    ¬ ("unknown" ∈ (["a"] : List String)) ∧
    (lag_calc id xcTpl [⟨"unknown", 0⟩] [] ["a"] [[tplZ]] 1 1).1 = Except.ok [] := by
  refine ⟨by decide, ?_⟩
  norm_num +decide [lag_calc, buildDetectStreams, detectStreamTraces, firstMatch,
    select, trimTrace, delayTable, zippedSorted, tempDelays, minStarttime,
    streamSortStart, List.insertionSort, List.orderedInsert, dayLoop, tagEvents,
    channelLoop, channelStep, amax, argmax, lookupS, Bind.bind, Except.bind,
    tplZ, xcTpl, fixStats]
theorem C9_witness :
    (lag_calc id xcTpl [⟨"x", 0⟩] [datZ] [] [] 0 1).1 =
      Except.error PyErr.lookupError ∧
    (∀ (d : Detection) (pr : String × List Trace) (data : List Trace),
      firstMatch (fun p => p.1 == d.template_name)
        (([] : List String).zip ([] : List (List Trace))) = Except.ok pr →
      ∃ ws, detectStreamTraces (zippedSorted [] []) (delayTable [] []) 0 d data =
        Except.ok ws) :=
  C9_amended_lookup_failure id xcTpl [⟨"x", 0⟩] [datZ] [] [] 0 1
    (by simp) ⟨⟨"x", 0⟩, List.mem_cons_self _ _, by decide⟩
theorem detectStreamTraces_error_classify (zippedS : List (String × List Trace))
    (delays : List (String × List (String × String × ℚ)))
    (shift_len : ℚ) (d : Detection) :
    ∀ (data : List Trace) (e : PyErr),
    detectStreamTraces zippedS delays shift_len d data = Except.error e →
    e = PyErr.lookupError := by
  intro data
  induction data with
  | nil => intro e h; cases h
  | cons tr rest ih =>
    intro e h
    simp only [detectStreamTraces, Bind.bind, Except.bind] at h
    cases h1 : firstMatch (fun t => t.1 == d.template_name) zippedS with
    | error e1 =>
      rw [h1] at h
      dsimp only at h
      cases h
      exact firstMatch_error h1
    | ok tpl =>
      rw [h1] at h
      dsimp only at h
      cases hsel : (select tpl.2 tr.stats.station tr.stats.channel).head? with
      | none =>
        rw [hsel] at h
        exact ih e h
      | some t0 =>
        rw [hsel] at h
        dsimp only at h
        cases h2 : firstMatch (fun x => x.1 == d.template_name) delays with
        | error e2 =>
          rw [h2] at h
          dsimp only at h
          cases h
          exact firstMatch_error h2
        | ok delayList =>
          rw [h2] at h
          dsimp only at h
          cases h3 : firstMatch (fun x => x.1 == tr.stats.station &&
              x.2.1 == tr.stats.channel) delayList.2 with
          | error e3 =>
            rw [h3] at h
            dsimp only at h
            cases h
            exact firstMatch_error h3
          | ok entry =>
            rw [h3] at h
            dsimp only at h
            cases h4 : detectStreamTraces zippedS delays shift_len d rest with
            | error e4 =>
              rw [h4] at h
              dsimp only at h
              exact (Except.error.inj h) ▸ ih e4 h4
            | ok rest2 =>
              rw [h4] at h
              dsimp only at h
              cases h
theorem buildDetectStreams_error_classify (zippedS : List (String × List Trace))
    (delays : List (String × List (String × String × ℚ))) (shift_len : ℚ) :
    ∀ (detections : List Detection) (data : List Trace) (e : PyErr),
    buildDetectStreams zippedS delays shift_len detections data = Except.error e →
    e = PyErr.lookupError := by
  intro detections
  induction detections with
  | nil => intro data e h; cases h
  | cons d rest ih =>
    intro data e h
    simp only [buildDetectStreams, Bind.bind, Except.bind] at h
    cases h1 : detectStreamTraces zippedS delays shift_len d data with
    | error e1 =>
      rw [h1] at h
      dsimp only at h
      exact (Except.error.inj h) ▸
        detectStreamTraces_error_classify zippedS delays shift_len d data e1 h1
    | ok s =>
      rw [h1] at h
      dsimp only at h
      cases h2 : buildDetectStreams zippedS delays shift_len rest data with
      | error e2 =>
        rw [h2] at h
        dsimp only at h
        exact (Except.error.inj h) ▸ ih data e2 h2
      | ok restS =>
        rw [h2] at h
        dsimp only at h
        cases h
theorem C4_counterexample :
    ((-1 : ℚ) < 0) ∧ ¬ ((0 : ℚ) < 2 ∧ (2 : ℚ) < 1) ∧
    (lag_calc id xcTpl [] [] ["t"] [[]] (-1) 2).1 = Except.ok [] := by
  refine ⟨by norm_num, by norm_num, ?_⟩
  norm_num [lag_calc, buildDetectStreams, delayTable, zippedSorted, tempDelays,
    streamSortStart, List.insertionSort]
/-- C4 amended: lag_calc performs no configuration validation; the only
exception it can raise is a LookupError from the name and delay lookups. -/
theorem C4_amended_only_lookup_errors (sched : List (ℕ × Event) → List (ℕ × Event))
    (xc : List ℚ → List ℚ → List ℚ) (detections : List Detection)
    (detect_data : List Trace) (template_names : List String)
    (templates : List (List Trace)) (shift_len min_cc : ℚ) (e : PyErr)
    (h : (lag_calc sched xc detections detect_data template_names templates
        shift_len min_cc).1 = Except.error e) :
    e = PyErr.lookupError := by
  unfold lag_calc at h
  dsimp only at h
  cases hb : buildDetectStreams (zippedSorted template_names templates)
      (delayTable template_names templates) shift_len detections detect_data with
  | error e1 =>
    rw [hb] at h
    cases h
    exact buildDetectStreams_error_classify _ _ _ _ _ _ hb
  | ok ds =>
    rw [hb] at h
    cases h
theorem C4_amended_witness : PyErr.lookupError = PyErr.lookupError :=
  C4_amended_only_lookup_errors id xcTpl [⟨"x", 0⟩] [datZ] [] [] 0 1
    PyErr.lookupError
    (by norm_num +decide [lag_calc, buildDetectStreams, detectStreamTraces, firstMatch,
      delayTable, zippedSorted, Bind.bind, Except.bind, datZ, fixStats])
theorem C6_witness :
    detectStreamTraces (zippedSorted ["a"] [[tplZ]]) (delayTable ["a"] [[tplZ]]) 1
      ⟨"a", 0⟩ [datZ, datX] =
    Except.ok ([datZ, datX].filterMap (windowSpec ⟨"a", 0⟩ 1 [tplZ])) :=
  C6_window_extractor ["a"] [[tplZ]] 1 ⟨"a", 0⟩ [tplZ]
    (by norm_num +decide [firstMatch, List.zip, List.zipWith, List.filter])
    (by decide) [datZ, datX]
theorem sortZippedTemplates_eq_map :
    ∀ (templates : List (List Trace)) (template_names : List String),
    templates.length ≤ template_names.length →
    sortZippedTemplates template_names templates = templates.map streamSortStart := by
  intro templates
  induction templates with
  | nil => intro ns _; cases ns <;> rfl
  | cons t ts ih =>
    intro ns hlen
    cases ns with
    | nil => simp at hlen
    | cons n ns =>
      show streamSortStart t :: sortZippedTemplates ns ts = _
      rw [List.map_cons, ih ns (Nat.le_of_succ_le_succ hlen)]
theorem forall₂_sorted_of_map (templates : List (List Trace)) :
    List.Forall₂ (fun before after => List.Perm after before ∧ List.Sorted traceLe after)
      templates (templates.map streamSortStart) := by
  induction templates with
  | nil => exact List.Forall₂.nil
  | cons t ts ih =>
    exact List.Forall₂.cons
      ⟨List.perm_insertionSort traceLe t, List.sorted_insertionSort traceLe t⟩ ih
/-- C10: after lag_calc (whether it returns or raises past the delay loop)
every caller-supplied template has been sorted in place by trace start time;
the traces themselves, their samples and metadata, are a permutation of the
originals. -/
theorem C10_templates_mutated (sched : List (ℕ × Event) → List (ℕ × Event))
    (xc : List ℚ → List ℚ → List ℚ) (detections : List Detection)
    (detect_data : List Trace) (template_names : List String)
    (templates : List (List Trace)) (shift_len min_cc : ℚ)
    (hlen : templates.length ≤ template_names.length) :
    (lag_calc sched xc detections detect_data template_names templates
        shift_len min_cc).2 = templates.map streamSortStart ∧
    List.Forall₂ (fun before after => List.Perm after before ∧ List.Sorted traceLe after)
      templates
      (lag_calc sched xc detections detect_data template_names templates
        shift_len min_cc).2 := by
  have h2 : (lag_calc sched xc detections detect_data template_names templates
      shift_len min_cc).2 = templates.map streamSortStart := by
    unfold lag_calc
    dsimp only
    exact sortZippedTemplates_eq_map templates template_names hlen
  refine ⟨h2, ?_⟩
  rw [h2]
  exact forall₂_sorted_of_map templates
theorem C10_witness :
    (lag_calc id xcTpl [] [] ["a"] [[tplLate, tplZ]] 1 1).2 =
      [[tplLate, tplZ]].map streamSortStart ∧
    List.Forall₂ (fun before after => List.Perm after before ∧ List.Sorted traceLe after)
      [[tplLate, tplZ]] (lag_calc id xcTpl [] [] ["a"] [[tplLate, tplZ]] 1 1).2 :=
  C10_templates_mutated id xcTpl [] [] ["a"] [[tplLate, tplZ]] 1 1 (by decide)
